import Mathlib

/-!
# A verification model of the `lox-rust` tree-walking interpreter

This file gives a shallow embedding of the interpreter found in `src/`:
the token/AST data model (`scanner.rs`, `expression.rs`, `statement.rs`),
the environment chains (`environment.rs`), the evaluator
(`interpreter.rs` together with `LoxCallable::call` from `callable.rs`),
and the recursive-descent parser (`parser.rs`).

Modelling conventions, chosen once and used throughout:

* Rust's `Rc<RefCell<Environment>>` heap graph is modelled as a store
  (`List Environment`) addressed by `Nat` indices; an `Option Nat` plays
  the role of the optional `Rc` parent pointer.  New cells are only ever
  appended, and the content of a cell is updated with `List.set`, which
  models `borrow_mut` on a shared `Rc`.
* `f64` numbers are modelled as `Int`.  Every numeric literal exercised
  by the development is integral and the operations used (`+`, `-`, `*`,
  comparisons, equality) agree with IEEE semantics on small integers;
  `/` is carried along for completeness but never relied upon.
* Fallible Rust code returning `Result<_, String>` is modelled with the
  `Res` sum below; `Res.fatal` models a Rust `panic` and `Res.timeout`
  is the fuel-exhaustion marker of the fuel-indexed recursion.
* `HashMap<String, LiteralValue>` is modelled as an association list
  with insert-replaces-existing-key semantics (`mapInsert`), and
  `HashMap::extend` as a fold of inserts (`mapExtend`).
* The snapshot's `interpreter.rs` and `callable.rs` come from different
  stages of a refactor (e.g. `interpreter.rs` constructs
  `LoxCallable::LoxFunction` with an explicit `arity` field while
  `callable.rs` declares the variant without one and derives the arity
  from `parameters.len()`; `interpreter.rs` names the return slot
  `specials["return"]` while `callable.rs` names it `return_value`).
  The model takes statement/expression evaluation from `interpreter.rs`
  (`Interpreter::evaluate` / `execute` / `execute_block` / `interpret`),
  and the function-call protocol from `callable.rs`
  (`LoxCallable::call`), which the live `Expr::Call` arm of
  `Interpreter::evaluate` delegates to.  Those are exactly the symbols
  the development reasons about; the unused `Expr::_evaluate`,
  `Interpreter::locals`/`look_up_variable`/`resolve`, and the
  commented-out call handler are not modelled.
-/

/-- Token kinds, from `TokenType` in `scanner.rs`. -/
inductive TokenType where
  | LeftParen | RightParen | LeftBrace | RightBrace
  | Comma | Dot | Minus | Plus | Semicolon | Slash | Star
  | Bang | BangEqual | Equal | EqualEqual
  | Greater | GreaterEqual | Less | LessEqual
  | Identifier | StringLit | Number
  | And | Class | Else | False | Fun | For | If | Nil | Or
  | Print | Return | Super | This | True | Var | While
  | Eof
deriving DecidableEq, Repr

/-- `Display for TokenType` (which defers to the derived `Debug` name). -/
def TokenType.display : TokenType → String
  | .LeftParen => "LeftParen" | .RightParen => "RightParen"
  | .LeftBrace => "LeftBrace" | .RightBrace => "RightBrace"
  | .Comma => "Comma" | .Dot => "Dot" | .Minus => "Minus" | .Plus => "Plus"
  | .Semicolon => "Semicolon" | .Slash => "Slash" | .Star => "Star"
  | .Bang => "Bang" | .BangEqual => "BangEqual"
  | .Equal => "Equal" | .EqualEqual => "EqualEqual"
  | .Greater => "Greater" | .GreaterEqual => "GreaterEqual"
  | .Less => "Less" | .LessEqual => "LessEqual"
  | .Identifier => "Identifier" | .StringLit => "StringLit" | .Number => "Number"
  | .And => "And" | .Class => "Class" | .Else => "Else" | .False => "False"
  | .Fun => "Fun" | .For => "For" | .If => "If" | .Nil => "Nil" | .Or => "Or"
  | .Print => "Print" | .Return => "Return" | .Super => "Super" | .This => "This"
  | .True => "True" | .Var => "Var" | .While => "While"
  | .Eof => "Eof"

/-- `scanner::LiteralValue`: the literal payload carried by a token
(`FValue(f64)` modelled with `Int`, `StringValue(String)`). -/
inductive ScanLiteral where
  | FValue (x : Int)
  | SValue (s : String)
deriving DecidableEq, Repr

/-- `scanner::Token`. -/
structure Token where
  tokenType : TokenType
  lexeme : String
  literal : Option ScanLiteral
  line : Nat
deriving DecidableEq, Repr

/-- The constant literals a parsed `Expr::Literal` can carry.  In the
source the field has type `expression::LiteralValue`, but the parser
only ever places `Number`, `StringValue`, `True`, `False` and `Nil`
into it (`LiteralValue::from_token` panics on anything else, and the
`for` desugaring inserts `Literal { value: True }`), so the AST literal
payload is modelled by this constant-only type. -/
inductive PrimValue where
  | Number (x : Int)
  | StringValue (s : String)
  | True
  | False
  | Nil
deriving DecidableEq, Repr

set_option genSizeOf false in
mutual
/-- `expression::Expr`.  Operator tokens are represented by their
`TokenType` (the evaluator only ever inspects `operator.token_type`);
the `paren` bookkeeping tokens are dropped. -/
inductive Expr where
  | Assign (name : String) (value : Expr)
  | Binary (left : Expr) (operator : TokenType) (right : Expr)
  | Call (callee : Expr) (arguments : List Expr)
  | Grouping (expression : Expr)
  | Lambda (arguments : List String) (body : List Stmt)
  | Literal (value : PrimValue)
  | Logical (left : Expr) (operator : TokenType) (right : Expr)
  | Unary (operator : TokenType) (right : Expr)
  | Variable (name : String)

/-- `statement::Stmt`.  Name tokens are represented by their lexeme;
the `keyword` token of `Return` is dropped (it is never read). -/
inductive Stmt where
  | Block (statements : List Stmt)
  | Expression (expression : Expr)
  | Function (name : String) (params : List String) (body : List Stmt)
  | If (condition : Expr) (then_stmt : Stmt) (else_stmt : Option Stmt)
  | Print (expression : Expr)
  | Return (value : Option Expr)
  | Var (name : String) (initializer : Expr)
  | While (condition : Expr) (body : Stmt)
end

/-- The tag of a native function; `clock` is the only one installed. -/
inductive NativeTag where
  | clock
deriving DecidableEq, Repr

mutual
/-- `expression::LiteralValue`, the runtime value type, with the
`Callable` payload being `callable::LoxCallable` (the live evaluator
constructs `LiteralValue::Callable(LoxCallable::…)`). -/
inductive LiteralValue where
  | Number (x : Int)
  | StringValue (s : String)
  | True
  | False
  | Nil
  | Callable (c : LoxCallable)

/-- `callable::LoxCallable`.  A user function carries its name,
parameter names, body, and the `Environment` *value* captured at its
definition (`interpreter.rs` passes `self.environment.borrow_mut().clone()`,
i.e. a snapshot of the record behind the current pointer).  The
`interpreter.rs` constructor also passes `arity: params.len()`, which
`callable.rs` derives from `parameters.len()`; the two agree, so the
field is derived here. -/
inductive LoxCallable where
  | LoxFunction (name : String) (parameters : List String)
      (body : List Stmt) (closure : Environment)
  | NativeFunction (name : String) (arity : Nat) (tag : NativeTag)

/-- `environment::Environment`: an owned bindings map plus an optional
shared handle (`Rc<RefCell<_>>`, modelled as a store index) to the
enclosing environment. -/
inductive Environment where
  | mk (values : List (String × LiteralValue)) (enclosing : Option Nat)
end

def Environment.values : Environment → List (String × LiteralValue)
  | .mk v _ => v

def Environment.enclosing : Environment → Option Nat
  | .mk _ e => e

/-- `LiteralValue::from_bool`. -/
def LiteralValue.fromBool (b : Bool) : LiteralValue :=
  if b then .True else .False

/-- `LiteralValue::to_type`. -/
def LiteralValue.toType : LiteralValue → String
  | .Number _ => "Number"
  | .StringValue _ => "String"
  | .True => "Boolean"
  | .False => "Boolean"
  | .Nil => "nil"
  | .Callable _ => "Callable"

/-- `LiteralValue::is_truthy`.  `none` models the
`panic!("Cannot use a callable as a truthy value")` arm. -/
def LiteralValue.isTruthy : LiteralValue → Option Bool
  | .Number x => some (x != 0)
  | .StringValue s => some (!s.isEmpty)
  | .True => some true
  | .False => some false
  | .Nil => some false
  | .Callable _ => none

def LoxCallable.cname : LoxCallable → String
  | .LoxFunction name _ _ _ => name
  | .NativeFunction name _ _ => name

/-- `LoxCallable::arity`: parameter count for user functions, the
stored arity for natives. -/
def LoxCallable.carity : LoxCallable → Nat
  | .LoxFunction _ parameters _ _ => parameters.length
  | .NativeFunction _ arity _ => arity

/-- `PartialEq for LiteralValue`: structural on constants, name+arity
comparison on callables, distinct kinds unequal. -/
def LiteralValue.eqV : LiteralValue → LiteralValue → Bool
  | .Number x, .Number y => x == y
  | .StringValue a, .StringValue b => a == b
  | .True, .True => true
  | .False, .False => true
  | .Nil, .Nil => true
  | .Callable c, .Callable d => c.cname == d.cname && c.carity == d.carity
  | _, _ => false

/-- `Display for LiteralValue` (`Display for LoxCallable` for the
callable arm).  Integral `f64` values print without a fractional part
in Rust, matching `Int` printing here. -/
def LiteralValue.display : LiteralValue → String
  | .Number x => toString x
  | .StringValue s => s
  | .True => "true"
  | .False => "false"
  | .Nil => "nil"
  | .Callable c => "<fn " ++ c.cname ++ "/" ++ toString c.carity ++ ">"

def PrimValue.toValue : PrimValue → LiteralValue
  | .Number x => .Number x
  | .StringValue s => .StringValue s
  | .True => .True
  | .False => .False
  | .Nil => .Nil

/-- `HashMap::get`. -/
def mapGet (m : List (String × LiteralValue)) (k : String) : Option LiteralValue :=
  match m with
  | [] => none
  | (k', v) :: rest => if k' = k then some v else mapGet rest k

/-- `HashMap::insert`: replace the binding of an existing key, append
otherwise. -/
def mapInsert (m : List (String × LiteralValue)) (k : String) (v : LiteralValue) :
    List (String × LiteralValue) :=
  match m with
  | [] => [(k, v)]
  | (k', v') :: rest =>
      if k' = k then (k, v) :: rest else (k', v') :: mapInsert rest k v

/-- `HashMap::extend`: insert every entry of `other`. -/
def mapExtend (m other : List (String × LiteralValue)) :
    List (String × LiteralValue) :=
  other.foldl (fun acc kv => mapInsert acc kv.1 kv.2) m

/-- The heap of environment records; `Rc` handles are indices. -/
abbrev Store := List Environment

/-- `Environment::get`: first match walking the chain outward.  The
fuel bounds the chain walk (call sites pass the store size, which
bounds every acyclic chain); `none` on exhaustion. -/
def envGet (store : Store) : Nat → Nat → String → Option LiteralValue
  | 0, _, _ => none
  | fuel + 1, idx, name =>
    match store[idx]? with
    | none => none
    | some env =>
      match mapGet env.values name with
      | some v => some v
      | none =>
        match env.enclosing with
        | some parent => envGet store fuel parent name
        | none => none

/-- `Environment::assign`: write into the innermost record of the chain
whose own bindings already contain the name; report `false` (leaving
the store untouched) when no record binds it. -/
def envAssign (store : Store) : Nat → Nat → String → LiteralValue → Store × Bool
  | 0, _, _, _ => (store, false)
  | fuel + 1, idx, name, v =>
    match store[idx]? with
    | none => (store, false)
    | some env =>
      match mapGet env.values name with
      | some _ =>
          (store.set idx (.mk (mapInsert env.values name v) env.enclosing), true)
      | none =>
        match env.enclosing with
        | some parent => envAssign store fuel parent name v
        | none => (store, false)

/-- `Environment::define` on the record at `idx` (unconditional
create-or-overwrite in that record). -/
def envDefine (store : Store) (idx : Nat) (name : String) (v : LiteralValue) : Store :=
  match store[idx]? with
  | none => store
  | some env => store.set idx (.mk (mapInsert env.values name v) env.enclosing)

/-- Outcome of a fallible interpreter step: `ok`/`err` mirror
`Result<_, String>`, `fatal` models a Rust `panic`, and `timeout` is
the fuel-exhaustion marker of the model. -/
inductive Res (α : Type) where
  | ok (v : α)
  | err (msg : String)
  | fatal (msg : String)
  | timeout
deriving Repr

/-- Sequencing with the `?` operator: propagate anything but `ok`. -/
def bindR {σ α β : Type} (r : σ × Res α) (k : σ → α → σ × Res β) : σ × Res β :=
  match r with
  | (s, .ok v) => k s v
  | (s, .err m) => (s, .err m)
  | (s, .fatal m) => (s, .fatal m)
  | (s, .timeout) => (s, .timeout)

/-- The mutable interpreter state: the environment heap, the current
environment pointer (`Interpreter::environment`), the return slot
(`specials` only ever holds the key `"return"`), the text printed so
far, and the host clock reading used by the native `clock`.  The
snapshot's unused `globals`/`locals` fields are not modelled. -/
structure Interp where
  store : Store
  envRef : Nat
  specials : Option LiteralValue
  output : List String
  now : Int

/-- The binary-operator table of `Interpreter::evaluate`
(`Expr::Binary` arm), arms in source order. -/
def evalBinary (l : LiteralValue) (op : TokenType) (r : LiteralValue) : Res LiteralValue :=
  match l, op, r with
  | .Number x, .Plus, .Number y => .ok (.Number (x + y))
  | .Number x, .Minus, .Number y => .ok (.Number (x - y))
  | .Number x, .Star, .Number y => .ok (.Number (x * y))
  | .Number x, .Slash, .Number y => .ok (.Number (x / y))
  | .Number x, .Greater, .Number y => .ok (.fromBool (x > y))
  | .Number x, .GreaterEqual, .Number y => .ok (.fromBool (x ≥ y))
  | .Number x, .Less, .Number y => .ok (.fromBool (x < y))
  | .Number x, .LessEqual, .Number y => .ok (.fromBool (x ≤ y))
  | .Number _, tt, .StringValue _ =>
      .err (tt.display ++ " is not supported for String and Number")
  | .StringValue _, tt, .Number _ =>
      .err (tt.display ++ " is not supported for String and Number")
  | .StringValue a, .Plus, .StringValue b => .ok (.StringValue (a ++ b))
  | .StringValue a, .Greater, .StringValue b => .ok (.fromBool (b < a))
  | .StringValue a, .GreaterEqual, .StringValue b => .ok (.fromBool (b ≤ a))
  | .StringValue a, .Less, .StringValue b => .ok (.fromBool (a < b))
  | .StringValue a, .LessEqual, .StringValue b => .ok (.fromBool (a ≤ b))
  | x, .BangEqual, y => .ok (.fromBool (!(x.eqV y)))
  | x, .EqualEqual, y => .ok (.fromBool (x.eqV y))
  | x, tt, y =>
      .err (tt.display ++ " is not supported for " ++ x.display ++ " and " ++ y.display)

/-- The six mutually recursive operations of the evaluator, bundled so
that the fuel recursion can be tied with a plain `Nat.rec` (which the
kernel reduces efficiently).  Each field models one source function;
the recursive occurrences go through the engine one fuel step down. -/
structure Engine where
  evalExprF : Interp → Expr → Interp × Res LiteralValue
  evalArgsF : Interp → List Expr → Interp × Res (List LiteralValue)
  callFnF : Interp → LoxCallable → List LiteralValue → Interp × Res LiteralValue
  execStmtF : Interp → Stmt → Interp × Res Unit
  executeBlockF : Interp → List Stmt → Interp × Res Unit
  interpretF : Interp → List Stmt → Interp × Res Unit

/-- The exhausted engine: every operation reports `timeout`. -/
def engineZero : Engine where
  evalExprF st _ := (st, .timeout)
  evalArgsF st _ := (st, .timeout)
  callFnF st _ _ := (st, .timeout)
  execStmtF st _ := (st, .timeout)
  executeBlockF st _ := (st, .timeout)
  interpretF st _ := (st, .timeout)

/-- One fuel step of the evaluator; `prev` is the engine available to
recursive calls.

* `evalExprF` is `Interpreter::evaluate`.
* `evalArgsF` is the left-to-right evaluation of a call's argument
  expressions (the glue between the `Expr::Call` arm, whose
  `arguments` are expressions, and `LoxCallable::call`, which receives
  values).
* `callFnF` is `LoxCallable::call`.  For a user function: zip the
  parameter names with the arguments (no arity check; `zip` stops at
  the shorter list), build the body environment as a fresh record
  holding the closure snapshot's bindings extended first with the
  *caller's* current record bindings and then the arguments, keeping
  the closure's enclosing handle; run the body; on success take the
  return slot as the result and restore the saved environment pointer
  and slot.  The `?` on `interpreter.interpret(body)?` propagates a
  body failure *without* restoring.  For a native function: dispatch
  to the host implementation (`clock_impl` reads the host clock; it
  never fails and ignores its arguments).
* `execStmtF` is `Interpreter::execute`.  Its `While` arm re-enters
  itself one fuel step down after one iteration, which re-evaluates
  the condition first — the unfolded form of the source's
  evaluate-condition-then-loop shape.  No arm consults the return
  slot.
* `executeBlockF` is `Interpreter::execute_block`: push a fresh record
  whose parent is the current pointer, run the statements there, and
  restore the saved pointer before returning the result — also on
  `Err` (the restoration in the source is unconditional straight-line
  code after `interpret`).  A panic unwinds the Rust stack, so `fatal`
  propagates unrestored.
* `interpretF` is `Interpreter::interpret`: execute the statements in
  order, without inspecting the return slot between them; the first
  failure aborts. -/
def engineStep (prev : Engine) : Engine where
  evalExprF st e :=
    match e with
    | .Assign name value =>
        bindR (prev.evalExprF st value) fun st1 v =>
          let (store', success) := envAssign st1.store st1.store.length st1.envRef name v
          if success then ({ st1 with store := store' }, .ok v)
          else (st1, .err ("Variable " ++ name ++ " has not been declared."))
    | .Binary left op right =>
        bindR (prev.evalExprF st left) fun st1 l =>
        bindR (prev.evalExprF st1 right) fun st2 r =>
          (st2, evalBinary l op r)
    | .Call callee args =>
        bindR (prev.evalExprF st callee) fun st1 c =>
          match c with
          | .Callable callable =>
              bindR (prev.evalArgsF st1 args) fun st2 vs =>
                prev.callFnF st2 callable vs
          | _ => (st1, .err ("Expected callable"))
    | .Grouping inner => prev.evalExprF st inner
    | .Lambda params body =>
        match st.store[st.envRef]? with
        | some env =>
            (st, .ok (.Callable (.LoxFunction ("lambda") params body env)))
        | none => (st, .fatal ("dangling environment handle"))
    | .Literal p => (st, .ok p.toValue)
    | .Logical left op right =>
        bindR (prev.evalExprF st left) fun st1 l =>
          match l.isTruthy with
          | none => (st1, .fatal ("Cannot use a callable as a truthy value"))
          | some b =>
            if op = TokenType.Or then
              if b then (st1, .ok l) else prev.evalExprF st1 right
            else
              if b then prev.evalExprF st1 right else (st1, .ok l)
    | .Unary op right =>
        bindR (prev.evalExprF st right) fun st1 v =>
          match v, op with
          | .Number x, .Minus => (st1, .ok (.Number (-x)))
          | _, .Minus =>
              (st1, .err ("Minus operator not implemented for " ++ v.toType ++ "."))
          | _, .Bang =>
            match v.isTruthy with
            | some b => (st1, .ok (LiteralValue.fromBool (!b)))
            | none => (st1, .fatal ("Cannot use a callable as a truthy value"))
          | _, tt => (st1, .err (tt.display ++ " is not a valid unary operator."))
    | .Variable name =>
        match envGet st.store st.store.length st.envRef name with
        | some v => (st, .ok v)
        | none => (st, .err ("Variable '" ++ name ++ "' has not been declared."))
  evalArgsF st es :=
    match es with
    | [] => (st, .ok [])
    | a :: rest =>
        bindR (prev.evalExprF st a) fun st1 v =>
        bindR (prev.evalArgsF st1 rest) fun st2 vs =>
          (st2, .ok (v :: vs))
  callFnF st c args :=
    match c with
    | .LoxFunction _name parameters body closure =>
        let argsEnv := (parameters.zip args).foldl (fun m kv => mapInsert m kv.1 kv.2) []
        let savedRef := st.envRef
        let savedRet := st.specials
        let callerValues :=
          match st.store[st.envRef]? with
          | some e => e.values
          | none => []
        let newEnv : Environment :=
          .mk (mapExtend (mapExtend closure.values callerValues) argsEnv) closure.enclosing
        let st1 := { st with store := st.store ++ [newEnv], envRef := st.store.length }
        match prev.interpretF st1 body with
        | (st2, .ok _) =>
            let rv := st2.specials
            ({ st2 with envRef := savedRef, specials := savedRet }, .ok (rv.getD .Nil))
        | (st2, .err m) => (st2, .err m)
        | (st2, .fatal m) => (st2, .fatal m)
        | (st2, .timeout) => (st2, .timeout)
    | .NativeFunction _ _ .clock => (st, .ok (.Number st.now))
  execStmtF st s :=
    match s with
    | .Block statements => prev.executeBlockF st statements
    | .Expression e =>
        bindR (prev.evalExprF st e) fun st1 _ => (st1, .ok ())
    | .Function name params body =>
        match st.store[st.envRef]? with
        | none => (st, .fatal ("dangling environment handle"))
        | some env =>
            let callable := LiteralValue.Callable (.LoxFunction name params body env)
            ({ st with store := envDefine st.store st.envRef name callable }, .ok ())
    | .If cond thenS elseS =>
        bindR (prev.evalExprF st cond) fun st1 v =>
          match v.isTruthy with
          | none => (st1, .fatal ("Cannot use a callable as a truthy value"))
          | some true => prev.interpretF st1 [thenS]
          | some false =>
            match elseS with
            | some els => prev.interpretF st1 [els]
            | none => (st1, .ok ())
    | .Print e =>
        bindR (prev.evalExprF st e) fun st1 v =>
          ({ st1 with output := st1.output ++ [v.display] }, .ok ())
    | .Return value =>
        (match value with
         | some e =>
             bindR (prev.evalExprF st e) fun st1 v =>
               ({ st1 with specials := some v }, .ok ())
         | none => ({ st with specials := some .Nil }, .ok ()))
    | .Var name init =>
        bindR (prev.evalExprF st init) fun st1 v =>
          ({ st1 with store := envDefine st1.store st1.envRef name v }, .ok ())
    | .While cond body =>
        bindR (prev.evalExprF st cond) fun st1 v =>
          match v.isTruthy with
          | none => (st1, .fatal ("Cannot use a callable as a truthy value"))
          | some false => (st1, .ok ())
          | some true =>
              bindR (prev.interpretF st1 [body]) fun st2 _ =>
                prev.execStmtF st2 (.While cond body)
  executeBlockF st statements :=
    let oldRef := st.envRef
    let newEnv : Environment := .mk [] (some st.envRef)
    let st1 := { st with store := st.store ++ [newEnv], envRef := st.store.length }
    match prev.interpretF st1 statements with
    | (st2, .ok u) => ({ st2 with envRef := oldRef }, .ok u)
    | (st2, .err m) => ({ st2 with envRef := oldRef }, .err m)
    | (st2, .fatal m) => (st2, .fatal m)
    | (st2, .timeout) => (st2, .timeout)
  interpretF st ss :=
    match ss with
    | [] => (st, .ok ())
    | s :: rest =>
        bindR (prev.execStmtF st s) fun st1 _ => prev.interpretF st1 rest

/-- The fuel-indexed evaluator engine. -/
def engine (fuel : Nat) : Engine :=
  Nat.rec engineZero (fun _ prev => engineStep prev) fuel

/-- `Interpreter::evaluate`, fuel-indexed. -/
def evalExpr (fuel : Nat) (st : Interp) (e : Expr) : Interp × Res LiteralValue :=
  (engine fuel).evalExprF st e

/-- Left-to-right evaluation of a call's argument expressions. -/
def evalArgs (fuel : Nat) (st : Interp) (es : List Expr) :
    Interp × Res (List LiteralValue) :=
  (engine fuel).evalArgsF st es

/-- `LoxCallable::call`, fuel-indexed. -/
def callFn (fuel : Nat) (st : Interp) (c : LoxCallable) (args : List LiteralValue) :
    Interp × Res LiteralValue :=
  (engine fuel).callFnF st c args

/-- `Interpreter::execute`, fuel-indexed. -/
def execStmt (fuel : Nat) (st : Interp) (s : Stmt) : Interp × Res Unit :=
  (engine fuel).execStmtF st s

/-- `Interpreter::execute_block`, fuel-indexed. -/
def executeBlock (fuel : Nat) (st : Interp) (statements : List Stmt) : Interp × Res Unit :=
  (engine fuel).executeBlockF st statements

/-- `Interpreter::interpret`, fuel-indexed. -/
def interpretStmts (fuel : Nat) (st : Interp) (ss : List Stmt) : Interp × Res Unit :=
  (engine fuel).interpretF st ss

theorem engine_zero : engine 0 = engineZero := rfl

theorem engine_succ (n : Nat) : engine (n + 1) = engineStep (engine n) := rfl

/-- `Interpreter::new`: a single global record binding the native
`clock`; the parameter fixes the host clock reading. -/
def initialInterp (now : Int) : Interp :=
  { store := [.mk [("clock", .Callable (.NativeFunction ("clock") 0 .clock))] none]
    envRef := 0
    specials := none
    output := []
    now := now }

/-- Running a parsed program from a fresh interpreter, as
`main.rs::run` does after parsing. -/
def runProgram (prog : List Stmt) (fuel : Nat) : Interp × Res Unit :=
  interpretStmts fuel (initialInterp 0) prog

/-! ## The recursive-descent parser (`parser.rs`) -/

/-- `parser::Parser`: the token buffer and the cursor.  The buffer — a
`Vec<Token>` indexed in O(1) by `tokens[i]` — is modelled by its index
function.  Out-of-range reads (which the source never performs: the
stream ends in `Eof` and `advance` stops there) return the `Eof`
sentinel. -/
structure Parser where
  tokens : Nat → Token
  current : Nat

/-- The sentinel returned for out-of-range reads. -/
def eofToken : Token :=
  { tokenType := .Eof, lexeme := "", literal := none, line := 0 }

/-- The index function of a token list. -/
def tokensFromList (l : List Token) : Nat → Token :=
  fun i => l.getD i eofToken

/-- `Parser::peek`. -/
def Parser.peek (p : Parser) : Token :=
  p.tokens p.current

/-- `Parser::previous`. -/
def Parser.previous (p : Parser) : Token :=
  p.tokens (p.current - 1)

/-- `Parser::is_at_end`. -/
def Parser.isAtEnd (p : Parser) : Bool :=
  p.peek.tokenType == TokenType.Eof

/-- `Parser::advance` (the cursor movement; the returned token is read
through `previous` at the call sites that need it). -/
def Parser.advanceP (p : Parser) : Parser :=
  if p.isAtEnd then p else { p with current := p.current + 1 }

/-- `Parser::check`. -/
def Parser.check (p : Parser) (tt : TokenType) : Bool :=
  if p.isAtEnd then false else p.peek.tokenType == tt

/-- `Parser::match_tokens`: advance past the first matching kind. -/
def Parser.matchTokens (p : Parser) (types : List TokenType) : Parser × Bool :=
  match types with
  | [] => (p, false)
  | t :: rest => if p.check t then (p.advanceP, true) else p.matchTokens rest

/-- `Parser::consume`. -/
def Parser.consume (p : Parser) (tt : TokenType) (message : String) : Parser × Res Token :=
  if p.peek.tokenType == tt then
    let p1 := p.advanceP
    (p1, .ok p1.previous)
  else (p, .err message)

/-- The mutually recursive productions of `parser.rs`, bundled like the
evaluator's `Engine` so the fuel recursion is a plain `Nat.rec`.
`…LoopF` fields are the `while`/`loop` bodies of the corresponding
source functions, carrying the loop accumulator explicitly. -/
structure PEngine where
  parseLoopF : Parser → List Stmt → List String → Parser × Res (List Stmt)
  declarationF : Parser → Parser × Res Stmt
  statementF : Parser → Parser × Res Stmt
  forStatementF : Parser → Parser × Res Stmt
  ifStatementF : Parser → Parser × Res Stmt
  printStatementF : Parser → Parser × Res Stmt
  returnStatementF : Parser → Parser × Res Stmt
  exprStatementF : Parser → Parser × Res Stmt
  whileStatementF : Parser → Parser × Res Stmt
  blockStatementF : Parser → Parser × Res Stmt
  blockLoopF : Parser → List Stmt → Parser × Res Stmt
  funDeclarationF : Parser → Parser × Res Stmt
  varDeclarationF : Parser → Parser × Res Stmt
  paramsLoopF : String → Parser → List String → Parser × Res (List String)
  expressionF : Parser → Parser × Res Expr
  assignmentF : Parser → Parser × Res Expr
  orExprF : Parser → Parser × Res Expr
  orLoopF : Parser → Expr → Parser × Res Expr
  andExprF : Parser → Parser × Res Expr
  andLoopF : Parser → Expr → Parser × Res Expr
  equalityF : Parser → Parser × Res Expr
  equalityLoopF : Parser → Expr → Parser × Res Expr
  comparisonF : Parser → Parser × Res Expr
  comparisonLoopF : Parser → Expr → Parser × Res Expr
  termF : Parser → Parser × Res Expr
  termLoopF : Parser → Expr → Parser × Res Expr
  factorF : Parser → Parser × Res Expr
  factorLoopF : Parser → Expr → Parser × Res Expr
  unaryF : Parser → Parser × Res Expr
  callF : Parser → Parser × Res Expr
  callLoopF : Parser → Expr → Parser × Res Expr
  finishCallF : Parser → Expr → Parser × Res Expr
  argsLoopF : Parser → List Expr → Parser × Res (List Expr)
  primaryF : Parser → Parser × Res Expr
  lambdaExpressionF : Parser → Parser × Res Expr
  synchronizeF : Parser → Parser
  syncLoopF : Parser → Parser

/-- The exhausted parser engine: productions report `timeout`;
`synchronize`, which cannot fail in the source, idles. -/
def pengineZero : PEngine where
  parseLoopF p _ _ := (p, .timeout)
  declarationF p := (p, .timeout)
  statementF p := (p, .timeout)
  forStatementF p := (p, .timeout)
  ifStatementF p := (p, .timeout)
  printStatementF p := (p, .timeout)
  returnStatementF p := (p, .timeout)
  exprStatementF p := (p, .timeout)
  whileStatementF p := (p, .timeout)
  blockStatementF p := (p, .timeout)
  blockLoopF p _ := (p, .timeout)
  funDeclarationF p := (p, .timeout)
  varDeclarationF p := (p, .timeout)
  paramsLoopF _ p _ := (p, .timeout)
  expressionF p := (p, .timeout)
  assignmentF p := (p, .timeout)
  orExprF p := (p, .timeout)
  orLoopF p _ := (p, .timeout)
  andExprF p := (p, .timeout)
  andLoopF p _ := (p, .timeout)
  equalityF p := (p, .timeout)
  equalityLoopF p _ := (p, .timeout)
  comparisonF p := (p, .timeout)
  comparisonLoopF p _ := (p, .timeout)
  termF p := (p, .timeout)
  termLoopF p _ := (p, .timeout)
  factorF p := (p, .timeout)
  factorLoopF p _ := (p, .timeout)
  unaryF p := (p, .timeout)
  callF p := (p, .timeout)
  callLoopF p _ := (p, .timeout)
  finishCallF p _ := (p, .timeout)
  argsLoopF p _ := (p, .timeout)
  primaryF p := (p, .timeout)
  lambdaExpressionF p := (p, .timeout)
  synchronizeF p := p
  syncLoopF p := p

/-- One fuel step of the parser.  Each field mirrors the source
function of the same name (`parseLoopF` is the loop of
`Parser::parse`, accumulating statements and formatted errors;
`paramsLoopF` is the shared parameter loop of `fun_declaration` and
`lambda_expression`, taking the overflow message of its caller). -/
def pengineStep (prev : PEngine) : PEngine where
  parseLoopF p stmts errors :=
    if p.isAtEnd then
      if errors.isEmpty then (p, .ok stmts)
      else (p, .err (String.intercalate "\n" errors))
    else
      let line := p.peek.line
      match prev.declarationF p with
      | (p1, .ok s) => prev.parseLoopF p1 (stmts ++ [s]) errors
      | (p1, .err m) =>
          let p2 := prev.synchronizeF p1
          prev.parseLoopF p2 stmts (errors ++ ["Line " ++ toString line ++ ": " ++ m])
      | (p1, .fatal m) => (p1, .fatal m)
      | (p1, .timeout) => (p1, .timeout)
  declarationF p :=
    let (p1, m) := p.matchTokens [.Fun]
    if m then prev.funDeclarationF p1
    else
      let (p2, m2) := p1.matchTokens [.Var]
      if m2 then prev.varDeclarationF p2
      else prev.statementF p2
  statementF p :=
    let (p1, m1) := p.matchTokens [.For]
    if m1 then prev.forStatementF p1
    else
      let (p2, m2) := p1.matchTokens [.If]
      if m2 then prev.ifStatementF p2
      else
        let (p3, m3) := p2.matchTokens [.Print]
        if m3 then prev.printStatementF p3
        else
          let (p4, m4) := p3.matchTokens [.Return]
          if m4 then prev.returnStatementF p4
          else
            let (p5, m5) := p4.matchTokens [.While]
            if m5 then prev.whileStatementF p5
            else
              let (p6, m6) := p5.matchTokens [.LeftBrace]
              if m6 then prev.blockStatementF p6
              else prev.exprStatementF p6
  forStatementF p :=
    bindR (p.consume .LeftParen ("Expected '(' after 'for'.")) fun p1 _ =>
    let (p2, mSemi) := p1.matchTokens [.Semicolon]
    bindR
      (if mSemi then (p2, .ok none)
       else
         let (p3, mVar) := p2.matchTokens [.Var]
         if mVar then
           bindR (prev.varDeclarationF p3) fun p4 s => (p4, .ok (some s))
         else
           bindR (prev.exprStatementF p3) fun p4 s => (p4, .ok (some s)))
      fun p5 initializer =>
    let (p6, mSemi2) := p5.matchTokens [.Semicolon]
    bindR
      (if mSemi2 then (p6, .ok (Expr.Literal .True))
       else prev.expressionF p6)
      fun p7 condition =>
    bindR (p7.consume .Semicolon ("Expected ';' after loop condition.")) fun p8 _ =>
    bindR
      (if p8.check .RightParen then (p8, .ok none)
       else bindR (prev.expressionF p8) fun p9 e => (p9, .ok (some e)))
      fun p10 increment =>
    bindR (p10.consume .RightParen ("Expected ')' after for loop clauses.")) fun p11 _ =>
    bindR (prev.statementF p11) fun p12 body0 =>
      let body1 :=
        match increment with
        | some inc => Stmt.Block [body0, Stmt.Expression inc]
        | none => body0
      let body2 := Stmt.While condition body1
      let body3 :=
        match initializer with
        | some ini => Stmt.Block [ini, body2]
        | none => body2
      (p12, .ok body3)
  ifStatementF p :=
    bindR (p.consume .LeftParen ("Expected '(' after 'if'.")) fun p1 _ =>
    bindR (prev.expressionF p1) fun p2 condition =>
    bindR (p2.consume .RightParen ("Expected ')' after 'if'.")) fun p3 _ =>
    bindR (prev.statementF p3) fun p4 thenS =>
      let (p5, mElse) := p4.matchTokens [.Else]
      if mElse then
        bindR (prev.statementF p5) fun p6 elseS =>
          (p6, .ok (Stmt.If condition thenS (some elseS)))
      else (p5, .ok (Stmt.If condition thenS none))
  printStatementF p :=
    bindR (prev.expressionF p) fun p1 value =>
    bindR (p1.consume .Semicolon ("Expected ';' after value.")) fun p2 _ =>
      (p2, .ok (Stmt.Print value))
  returnStatementF p :=
    bindR
      (if !(p.check .Semicolon) then
         bindR (prev.expressionF p) fun p1 e => (p1, .ok (some e))
       else (p, .ok none))
      fun p2 value =>
    bindR (p2.consume .Semicolon ("Expect ';' after return value")) fun p3 _ =>
      (p3, .ok (Stmt.Return value))
  exprStatementF p :=
    bindR (prev.expressionF p) fun p1 value =>
    bindR (p1.consume .Semicolon ("Expected ';' after value.")) fun p2 _ =>
      (p2, .ok (Stmt.Expression value))
  whileStatementF p :=
    bindR (p.consume .LeftParen ("Expect '(' after a 'while'.")) fun p1 _ =>
    bindR (prev.expressionF p1) fun p2 condition =>
    bindR (p2.consume .RightParen ("Expect ')' after while condition.")) fun p3 _ =>
    bindR (prev.statementF p3) fun p4 body =>
      (p4, .ok (Stmt.While condition body))
  blockStatementF p := prev.blockLoopF p []
  blockLoopF p statements :=
    if !(p.check .RightBrace) && !p.isAtEnd then
      bindR (prev.declarationF p) fun p1 d => prev.blockLoopF p1 (statements ++ [d])
    else
      bindR (p.consume .RightBrace ("Expected '\x7d' after a block")) fun p1 _ =>
        (p1, .ok (Stmt.Block statements))
  funDeclarationF p :=
    bindR (p.consume .Identifier ("Expected Function name.")) fun p1 nameTok =>
    bindR (p1.consume .LeftParen ("Expected '(' after Function name.")) fun p2 _ =>
    bindR
      (if p2.check .RightParen then (p2, .ok [])
       else prev.paramsLoopF ("Can't have more than 255 parameters.") p2 [])
      fun p3 params =>
    bindR (p3.consume .RightParen ("Expected ')' after parameters.")) fun p4 _ =>
    bindR (p4.consume .LeftBrace ("Expect '\x7b' before Function body.")) fun p5 _ =>
    bindR (prev.blockStatementF p5) fun p6 blk =>
      match blk with
      | .Block statements => (p6, .ok (Stmt.Function nameTok.lexeme params statements))
      | _ => (p6, .fatal ("Found something other than a block"))
  varDeclarationF p :=
    bindR (p.consume .Identifier ("Expected variable name.")) fun p1 nameTok =>
    let (p2, mEq) := p1.matchTokens [.Equal]
    bindR
      (if mEq then prev.expressionF p2
       else (p2, .ok (Expr.Literal .Nil)))
      fun p3 initializer =>
    bindR (p3.consume .Semicolon ("Expected ';' after variable declaration.")) fun p4 _ =>
      (p4, .ok (Stmt.Var nameTok.lexeme initializer))
  paramsLoopF overflowMsg p params :=
    if params.length ≥ 255 then (p, .err overflowMsg)
    else
      bindR (p.consume .Identifier ("Expected parameter name.")) fun p1 tok =>
        let params1 := params ++ [tok.lexeme]
        let (p2, mComma) := p1.matchTokens [.Comma]
        if mComma then prev.paramsLoopF overflowMsg p2 params1
        else (p2, .ok params1)
  expressionF p := prev.assignmentF p
  assignmentF p :=
    bindR (prev.orExprF p) fun p1 e =>
      let (p2, mEq) := p1.matchTokens [.Equal]
      if mEq then
        let equals := p2.previous
        bindR (prev.expressionF p2) fun p3 value =>
          match e with
          | .Variable name => (p3, .ok (Expr.Assign name value))
          | _ =>
              (p3, .err ("Token(" ++ equals.tokenType.display ++ " '" ++ equals.lexeme
                ++ "'): Invalid Assignment target"))
      else (p1, .ok e)
  orExprF p :=
    bindR (prev.andExprF p) fun p1 e => prev.orLoopF p1 e
  orLoopF p e :=
    let (p1, m) := p.matchTokens [.Or]
    if m then
      let op := p1.previous
      bindR (prev.andExprF p1) fun p2 r =>
        prev.orLoopF p2 (Expr.Logical e op.tokenType r)
    else (p1, .ok e)
  andExprF p :=
    bindR (prev.equalityF p) fun p1 e => prev.andLoopF p1 e
  andLoopF p e :=
    let (p1, m) := p.matchTokens [.And]
    if m then
      let op := p1.previous
      bindR (prev.equalityF p1) fun p2 r =>
        prev.andLoopF p2 (Expr.Logical e op.tokenType r)
    else (p1, .ok e)
  equalityF p :=
    bindR (prev.comparisonF p) fun p1 e => prev.equalityLoopF p1 e
  equalityLoopF p e :=
    let (p1, m) := p.matchTokens [.BangEqual, .EqualEqual]
    if m then
      let op := p1.previous
      bindR (prev.comparisonF p1) fun p2 r =>
        prev.equalityLoopF p2 (Expr.Binary e op.tokenType r)
    else (p1, .ok e)
  comparisonF p :=
    bindR (prev.termF p) fun p1 e => prev.comparisonLoopF p1 e
  comparisonLoopF p e :=
    let (p1, m) := p.matchTokens [.Greater, .GreaterEqual, .Less, .LessEqual]
    if m then
      let op := p1.previous
      bindR (prev.termF p1) fun p2 r =>
        prev.comparisonLoopF p2 (Expr.Binary e op.tokenType r)
    else (p1, .ok e)
  termF p :=
    bindR (prev.factorF p) fun p1 e => prev.termLoopF p1 e
  termLoopF p e :=
    let (p1, m) := p.matchTokens [.Minus, .Plus]
    if m then
      let op := p1.previous
      bindR (prev.factorF p1) fun p2 r =>
        prev.termLoopF p2 (Expr.Binary e op.tokenType r)
    else (p1, .ok e)
  factorF p :=
    bindR (prev.unaryF p) fun p1 e => prev.factorLoopF p1 e
  factorLoopF p e :=
    let (p1, m) := p.matchTokens [.Slash, .Star]
    if m then
      let op := p1.previous
      bindR (prev.unaryF p1) fun p2 r =>
        prev.factorLoopF p2 (Expr.Binary e op.tokenType r)
    else (p1, .ok e)
  unaryF p :=
    let (p1, m) := p.matchTokens [.Bang, .Minus]
    if m then
      let op := p1.previous
      bindR (prev.unaryF p1) fun p2 r =>
        (p2, .ok (Expr.Unary op.tokenType r))
    else prev.callF p1
  callF p :=
    bindR (prev.primaryF p) fun p1 e => prev.callLoopF p1 e
  callLoopF p e :=
    let (p1, m) := p.matchTokens [.LeftParen]
    if m then
      bindR (prev.finishCallF p1 e) fun p2 e2 => prev.callLoopF p2 e2
    else (p1, .ok e)
  finishCallF p callee :=
    bindR
      (if !(p.check .RightParen) then prev.argsLoopF p []
       else (p, .ok []))
      fun p1 arguments =>
    bindR (p1.consume .RightParen ("Expect ')' after arguments.")) fun p2 _ =>
      (p2, .ok (Expr.Call callee arguments))
  argsLoopF p arguments :=
    bindR (prev.expressionF p) fun p1 a =>
      let arguments1 := arguments ++ [a]
      if arguments1.length ≥ 255 then
        (p1, .err ("Functions cannot have more than 255 arguments"))
      else
        let (p2, mComma) := p1.matchTokens [.Comma]
        if mComma then prev.argsLoopF p2 arguments1
        else (p2, .ok arguments1)
  primaryF p :=
    let token := p.peek
    match token.tokenType with
    | .LeftParen =>
        let p1 := p.advanceP
        bindR (prev.expressionF p1) fun p2 e =>
        bindR (p2.consume .RightParen ("Expected ')'")) fun p3 _ =>
          (p3, .ok (Expr.Grouping e))
    | .False | .True | .Nil | .Number | .StringLit =>
        let p1 := p.advanceP
        (match token.tokenType, token.literal with
         | .Number, some (.FValue x) => (p1, .ok (Expr.Literal (.Number x)))
         | .StringLit, some (.SValue s) => (p1, .ok (Expr.Literal (.StringValue s)))
         | .False, _ => (p1, .ok (Expr.Literal .False))
         | .Nil, _ => (p1, .ok (Expr.Literal .Nil))
         | .True, _ => (p1, .ok (Expr.Literal .True))
         | _, _ => (p1, .fatal ("Could not create LiteralValue from token")))
    | .Identifier =>
        let p1 := p.advanceP
        (p1, .ok (Expr.Variable p1.previous.lexeme))
    | .Fun =>
        let p1 := p.advanceP
        prev.lambdaExpressionF p1
    | other => (p, .err ("Expected an expression, got " ++ other.display ++ "."))
  lambdaExpressionF p :=
    bindR (p.consume .LeftParen ("Expected '(' after lambda function.")) fun p1 _ =>
    bindR
      (if p1.check .RightParen then (p1, .ok [])
       else prev.paramsLoopF ("Can't have more than 255 arguments in a lambda function.") p1 [])
      fun p2 params =>
    bindR (p2.consume .RightParen ("Expected ')' after lambda function parameters.")) fun p3 _ =>
    bindR (p3.consume .LeftBrace ("Expected '\x7b' after lambda function declaration.")) fun p4 _ =>
    bindR (prev.blockStatementF p4) fun p5 blk =>
      match blk with
      | .Block statements => (p5, .ok (Expr.Lambda params statements))
      | _ => (p5, .fatal ("Block statement parsed something that was not a block."))
  synchronizeF p := prev.syncLoopF p.advanceP
  syncLoopF p :=
    if p.isAtEnd then p
    else if p.previous.tokenType == TokenType.Semicolon then p
    else
      match p.peek.tokenType with
      | .Class | .Fun | .Var | .For | .If | .While | .Print | .Return => p
      | _ => prev.syncLoopF p.advanceP

/-- The fuel-indexed parser engine. -/
def pengine (fuel : Nat) : PEngine :=
  Nat.rec pengineZero (fun _ prev => pengineStep prev) fuel

/-- `Parser::parse` on a token stream, from `Parser::new(tokens)`. -/
def parseTokens (tokens : List Token) (fuel : Nat) : Parser × Res (List Stmt) :=
  (pengine fuel).parseLoopF { tokens := tokensFromList tokens, current := 0 } [] []

theorem pengine_zero : pengine 0 = pengineZero := rfl

theorem pengine_succ (n : Nat) : pengine (n + 1) = pengineStep (pengine n) := rfl

/-! ## Concrete programs and token streams used by the claims -/

/-- `Res.is_ok`-style discriminator used to state that a parse or run
succeeded without fixing the produced value. -/
def Res.isOk {α : Type} : Res α → Bool
  | .ok _ => true
  | _ => false

/-- The scenario `if ("") print "t"; else print "f";` as an AST. -/
def truthyProg : List Stmt :=
  [ .If (.Literal (.StringValue "")) (.Print (.Literal (.StringValue "t")))
      (some (.Print (.Literal (.StringValue "f")))) ]

/-- The `makeCounter` closure scenario:
`fun makeCounter() { var i = 0; fun inc() { i = i + 1; return i; } return inc; }
var c = makeCounter(); print c(); print c(); print c();`. -/
def makeCounterProg : List Stmt :=
  [ .Function ("makeCounter") []
      [ .Var ("i") (.Literal (.Number 0))
      , .Function ("inc") []
          [ .Expression (.Assign ("i") (.Binary (.Variable ("i")) .Plus (.Literal (.Number 1))))
          , .Return (some (.Variable ("i"))) ]
      , .Return (some (.Variable ("inc"))) ]
  , .Var ("c") (.Call (.Variable ("makeCounter")) [])
  , .Print (.Call (.Variable ("c")) [])
  , .Print (.Call (.Variable ("c")) [])
  , .Print (.Call (.Variable ("c")) []) ]

/-- `fun g() { return secret; } fun h() { var secret = 42; return g(); }
print h();` — `secret` exists only in `h`'s (the dynamic caller's)
scope when `g`'s body reads it. -/
def scopeLeakProg : List Stmt :=
  [ .Function ("g") [] [ .Return (some (.Variable ("secret"))) ]
  , .Function ("h") []
      [ .Var ("secret") (.Literal (.Number 42))
      , .Return (some (.Call (.Variable ("g")) [])) ]
  , .Print (.Call (.Variable ("h")) []) ]

/-- `fun f() { return 1; print "x"; } print f();` — a statement placed
after a `return` in the same function body. -/
def retSeqProg : List Stmt :=
  [ .Function ("f") []
      [ .Return (some (.Literal (.Number 1)))
      , .Print (.Literal (.StringValue "x")) ]
  , .Print (.Call (.Variable ("f")) []) ]

/-- `while (true) { return 1; }` as a single statement. -/
def loopStmt : Stmt :=
  .While (.Literal .True) (.Return (some (.Literal (.Number 1))))

/-- `fun f(a, b) { return a; } print f(1, 2, 3);` — a user call with
more arguments than parameters. -/
def arityProg : List Stmt :=
  [ .Function ("f") ["a", "b"] [ .Return (some (.Variable ("a"))) ]
  , .Print (.Call (.Variable ("f"))
      [.Literal (.Number 1), .Literal (.Number 2), .Literal (.Number 3)]) ]

/-- `print clock(5);` — the native `clock` (declared arity 0) called
with one argument. -/
def clockArgProg : List Stmt :=
  [ .Print (.Call (.Variable ("clock")) [.Literal (.Number 5)]) ]

/-- `print !clock;` — logical negation applied to a callable value. -/
def bangClockProg : List Stmt :=
  [ .Print (.Unary .Bang (.Variable ("clock"))) ]

/-- `var x = 1; print x; x = 2; print x;`. -/
def varProg : List Stmt :=
  [ .Var ("x") (.Literal (.Number 1))
  , .Print (.Variable ("x"))
  , .Expression (.Assign ("x") (.Literal (.Number 2)))
  , .Print (.Variable ("x")) ]

/-- An identifier token (line 0). -/
def tIdent (s : String) : Token :=
  { tokenType := .Identifier, lexeme := s, literal := none, line := 0 }

/-- A number token (line 0). -/
def tNum (x : Int) : Token :=
  { tokenType := .Number, lexeme := toString x, literal := some (.FValue x), line := 0 }

/-- A literal-free token of the given kind (line 0). -/
def tk (tt : TokenType) (lx : String) : Token :=
  { tokenType := tt, lexeme := lx, literal := none, line := 0 }

/-- The token stream of `var x;`. -/
def varXTokens : List Token :=
  [tk .Var ("var"), tIdent ("x"), tk .Semicolon (";"), tk .Eof ("")]

/-- `n` comma-separated copies of the literal `1`. -/
def argsList : Nat → List Token
  | 0 => []
  | 1 => [tNum 1]
  | n + 2 => tNum 1 :: tk .Comma (",") :: argsList (n + 1)

/-- The token stream of the call statement `f(1, …, 1);` with `n`
arguments. -/
def callTokens (n : Nat) : List Token :=
  [tIdent ("f"), tk .LeftParen ("(")] ++ argsList n
    ++ [tk .RightParen (")"), tk .Semicolon (";"), tk .Eof ("")]

/-- `n` comma-separated parameter identifiers. -/
def paramsList : Nat → List Token
  | 0 => []
  | 1 => [tIdent ("p")]
  | n + 2 => tIdent ("p") :: tk .Comma (",") :: paramsList (n + 1)

/-- The token stream of `fun f(p, …, p) {}` with `n` parameters. -/
def funTokens (n : Nat) : List Token :=
  [tk .Fun ("fun"), tIdent ("f"), tk .LeftParen ("(")] ++ paramsList n
    ++ [tk .RightParen (")"), tk .LeftBrace ("\x7b"), tk .RightBrace ("\x7d"), tk .Eof ("")]

/-- The token stream of `var l = fun (p, …, p) {};` with `n` lambda
parameters. -/
def lambdaTokens (n : Nat) : List Token :=
  [tk .Var ("var"), tIdent ("l"), tk .Equal ("="), tk .Fun ("fun"), tk .LeftParen ("(")]
    ++ paramsList n
    ++ [tk .RightParen (")"), tk .LeftBrace ("\x7b"), tk .RightBrace ("\x7d"),
        tk .Semicolon (";"), tk .Eof ("")]

/-! ## Claim C1 — truthiness -/

/-- Claim C1, counterexample.  The claim says that every value other
than `false` and `nil` — in particular the number `0` and the empty
string — is truthy, and that `if ("") print "t"; else print "f";`
prints `t`.  On the code, `LiteralValue::is_truthy` maps `Number(0.0)`
and the empty string to `false` (as the unit test `expr_is_truthy`
also asserts), so the scenario takes the else-branch and prints `f`. -/
theorem truthiness_empty_string_counterexample :
    (LiteralValue.StringValue "").isTruthy = some false ∧
    (LiteralValue.Number 0).isTruthy = some false ∧
    (runProgram truthyProg 10).1.output = ["f"] :=
  ⟨rfl, rfl, rfl⟩

/-- Claim C1, amended.  Truthiness is decided by `is_truthy`: `false`,
`nil`, the number `0` and the empty string are falsy; every other
number, every non-empty string, and `true` are truthy; querying the
truthiness of a callable panics.  Consequently the scenario
`if ("") print "t"; else print "f";` prints `f`. -/
theorem truthiness_by_kind_amended :
    (∀ x : Int, x ≠ 0 → (LiteralValue.Number x).isTruthy = some true) ∧
    (LiteralValue.Number 0).isTruthy = some false ∧
    (∀ s : String, s ≠ "" → (LiteralValue.StringValue s).isTruthy = some true) ∧
    (LiteralValue.StringValue "").isTruthy = some false ∧
    LiteralValue.True.isTruthy = some true ∧
    LiteralValue.False.isTruthy = some false ∧
    LiteralValue.Nil.isTruthy = some false ∧
    (∀ c : LoxCallable, (LiteralValue.Callable c).isTruthy = none) ∧
    (runProgram truthyProg 10).1.output = ["f"] := by
  refine ⟨?_, rfl, ?_, rfl, rfl, rfl, rfl, fun _ => rfl, rfl⟩
  · intro x hx
    simp [LiteralValue.isTruthy, hx]
  · intro s hs
    have h : s.isEmpty = false := by
      rcases hb : s.isEmpty with _ | _
      · rfl
      · exact absurd ((String.isEmpty_iff s).mp hb) hs
    simp [LiteralValue.isTruthy, h]

/-- Witness for the amended C1 at concrete inputs: `7` and `"a"` are
truthy on the code. -/
theorem truthiness_by_kind_witness :
    (LiteralValue.Number 7).isTruthy = some true ∧
    (LiteralValue.StringValue "a").isTruthy = some true :=
  ⟨truthiness_by_kind_amended.1 7 (by decide),
   truthiness_by_kind_amended.2.2.1 "a" (by decide)⟩

/-! ## Claim C2 — closure capture -/

/-- Claim C2.  The claim says a closure captures its defining
environment by shared reference, so that the `makeCounter` counter
prints `1`, `2`, `3`.  On the code, `Stmt::Function` captures
`self.environment.borrow_mut().clone()` — a by-value snapshot of the
defining record (sharing only the enclosing chain) — and
`LoxCallable::call` clones it again per invocation, so the write
`i = i + 1` lands in a per-call copy: every call of the counter
returns `1` and the program prints `1`, `1`, `1` (against the spec's
pinned `1`, `2`, `3`). -/
theorem makeCounter_prints_1_1_1 :
    (runProgram makeCounterProg 50).1.output = ["1", "1", "1"] ∧
    (runProgram makeCounterProg 50).2 = Res.ok () :=
  ⟨rfl, rfl⟩

/-! ## Claim C3 — lexical scoping of calls -/

/-- Claim C3.  The claim says a variable read inside a function body
never resolves to a binding that exists only in the dynamic caller's
scope.  On the code, `LoxCallable::call` merges the caller's current
record into the callee's environment
(`env.values.extend(saved_env.values.clone())`), so `g`'s read of
`secret` — declared only inside `h`, `g`'s dynamic caller — resolves
to `42` and `print h();` prints `42` instead of failing. -/
theorem caller_scope_leaks_into_callee :
    (runProgram scopeLeakProg 50).1.output = ["42"] ∧
    (runProgram scopeLeakProg 50).2 = Res.ok () :=
  ⟨rfl, rfl⟩

/-! ## Claim C5 — arity checking -/

/-- Claim C5.  The claim says a call whose argument count differs from
the callee's declared arity fails with a runtime error and never
silently drops extra arguments.  On the code, `LoxCallable::call`
performs no arity check: `f(1, 2, 3)` with `fun f(a, b)` binds the
parameters by `zip` (dropping the extra `3`) and succeeds printing
`1`, and the native `clock` (arity 0) called with one argument also
succeeds.  (The only arity check in the snapshot sits in the unused
`Expr::_evaluate`.) -/
theorem arity_mismatch_not_checked :
    (runProgram arityProg 50).1.output = ["1"] ∧
    (runProgram arityProg 50).2 = Res.ok () ∧
    (runProgram clockArgProg 50).2 = Res.ok () :=
  ⟨rfl, rfl, rfl⟩

/-! ## Claim C9 — `!x` totality -/

/-- Claim C9, counterexample.  The claim says `!x` never fails for a
value of any kind, callables included.  On the code, the `Bang` arm of
`Interpreter::evaluate` calls `is_truthy`, which panics on a callable:
`print !clock;` aborts with the panic message instead of producing a
value. -/
theorem bang_on_callable_panics :
    (runProgram bangClockProg 10).2
      = Res.fatal ("Cannot use a callable as a truthy value") :=
  rfl

/-- Claim C9, amended.  For every non-callable value (number, string,
boolean, or nil) the unary `!` returns the boolean negation of the
value's truthiness and never fails; applied to a callable it panics. -/
theorem bang_on_noncallable_never_fails :
    ∀ (p : PrimValue) (n : Nat) (st : Interp),
      ∃ b : Bool, p.toValue.isTruthy = some b ∧
        evalExpr (n + 2) st (.Unary .Bang (.Literal p))
          = (st, .ok (LiteralValue.fromBool (!b))) := by
  intro p n st
  cases p with
  | Number x => exact ⟨x != 0, rfl, rfl⟩
  | StringValue s => exact ⟨!s.isEmpty, rfl, rfl⟩
  | True => exact ⟨true, rfl, rfl⟩
  | False => exact ⟨false, rfl, rfl⟩
  | Nil => exact ⟨false, rfl, rfl⟩

/-! ## Claim C10 — `var x;` defaults to nil -/

/-- Claim C10.  A variable declaration without initializer parses with
the literal `nil` substituted as the initializer, and running
`var x;` followed by `print x;` prints `nil`. -/
theorem var_without_initializer_nil :
    parseTokens varXTokens 50
      = (⟨tokensFromList varXTokens, 3⟩, .ok [Stmt.Var ("x") (Expr.Literal .Nil)]) ∧
    (runProgram [Stmt.Var ("x") (Expr.Literal .Nil), Stmt.Print (.Variable ("x"))] 20).1.output
      = ["nil"] :=
  ⟨rfl, rfl⟩

/-! ## Claim C4 — non-local return -/

/-- Helper for C4: executing `while (true) { return 1; }` exhausts any
amount of fuel — the `While` arm of `Interpreter::execute` re-enters
the loop without ever consulting the return slot, so setting the slot
does not break the iteration. -/
theorem whileTrueReturn_diverges : ∀ (n : Nat) (st : Interp),
    (execStmt n st loopStmt).2 = Res.timeout := by
  intro n
  induction n using Nat.strong_induction_on with
  | _ n ih =>
    match n with
    | 0 => intro _; rfl
    | 1 => intro _; rfl
    | 2 => intro _; rfl
    | 3 => intro _; rfl
    | m + 4 =>
      intro st
      have h := ih (m + 3) (by omega) { st with specials := some (.Number 1) }
      calc (execStmt (m + 4) st loopStmt).2
          = (execStmt (m + 3) { st with specials := some (.Number 1) } loopStmt).2 := rfl
        _ = Res.timeout := h

/-- Claim C4.  The claim says that once a `Return` sets the return
slot, no later statement of the enclosing sequence runs, and that a
`while` loop checks the slot each iteration and exits, so
`fun first(n) { var i = 0; while (true) { if (i == n) return i; i = i + 1; } } print first(4);`
terminates printing `4`.  On the code, neither `Interpreter::interpret`
nor the `While` arm inspects the slot: in
`fun f() { return 1; print "x"; } print f();` the `print "x"` after
the `return` still executes (output `x` then `1`), and
`while (true) { return 1; }` never terminates for any fuel, so the
`first(4)` scenario loops forever instead of printing `4`. -/
theorem return_does_not_stop_sequence_or_loop :
    (runProgram retSeqProg 50).1.output = ["x", "1"] ∧
    (∀ (n : Nat) (st : Interp), (execStmt n st loopStmt).2 = Res.timeout) :=
  ⟨rfl, whileTrueReturn_diverges⟩

/-! ## Claim C6 — undeclared variables and assignment -/

/-- Specification-side helper: the innermost record of the chain from
`idx` whose own bindings contain `name` (the record `Environment::assign`
writes to, and the one `Environment::get` reads from). -/
def chainResolve (store : Store) : Nat → Nat → String → Option Nat
  | 0, _, _ => none
  | fuel + 1, idx, name =>
    match store[idx]? with
    | none => none
    | some env =>
      match mapGet env.values name with
      | some _ => some idx
      | none =>
        match env.enclosing with
        | some parent => chainResolve store fuel parent name
        | none => none

/-- `mapGet` after `mapInsert`: the inserted key reads back the new
value, every other key is untouched. -/
theorem mapGet_mapInsert :
    ∀ (m : List (String × LiteralValue)) (k k' : String) (v : LiteralValue),
      mapGet (mapInsert m k v) k' = if k' = k then some v else mapGet m k' := by
  intro m
  induction m with
  | nil =>
    intro k k' v
    simp only [mapInsert, mapGet]
    by_cases h : k = k'
    · subst h; simp
    · rw [if_neg h, if_neg (fun hh => h hh.symm)]
  | cons hd tl ih =>
    intro k k' v
    obtain ⟨k0, v0⟩ := hd
    by_cases h0 : k0 = k
    · subst h0
      simp only [mapInsert, if_pos rfl, mapGet]
      by_cases h1 : k0 = k'
      · subst h1; simp
      · rw [if_neg h1, if_neg (fun hh => h1 hh.symm), if_neg h1]
    · simp only [mapInsert, if_neg h0, mapGet]
      by_cases h1 : k0 = k'
      · subst h1
        rw [if_pos rfl, if_neg h0, if_pos rfl]
      · rw [if_neg h1, if_neg h1, ih]

/-- `Environment::assign` and `Environment::get` against the innermost
resolver: when no record of the chain binds the name, `assign` reports
failure leaving the store untouched and `get` reads nothing; when the
innermost binder is record `j`, `assign` rewrites exactly that record's
binding (via `mapInsert`) and reports success. -/
theorem envAssign_resolve (name : String) (v : LiteralValue) :
    ∀ (fuel : Nat) (store : Store) (idx : Nat),
      (chainResolve store fuel idx name = none →
        envAssign store fuel idx name v = (store, false) ∧
        envGet store fuel idx name = none) ∧
      (∀ j, chainResolve store fuel idx name = some j →
        ∃ env, store[j]? = some env ∧ (mapGet env.values name).isSome = true ∧
          envAssign store fuel idx name v
            = (store.set j (.mk (mapInsert env.values name v) env.enclosing), true)) := by
  intro fuel
  induction fuel with
  | zero =>
    intro store idx
    exact ⟨fun _ => ⟨rfl, rfl⟩, fun j h => by simp [chainResolve] at h⟩
  | succ n ih =>
    intro store idx
    constructor
    · intro h
      simp only [chainResolve] at h
      simp only [envAssign, envGet]
      cases hidx : store[idx]? with
      | none => simp [hidx] at h ⊢
      | some env =>
        simp only [hidx] at h ⊢
        cases hget : mapGet env.values name with
        | some w => simp [hget] at h
        | none =>
          simp only [hget] at h ⊢
          cases henc : env.enclosing with
          | none => simp [henc]
          | some parent =>
            simp only [henc] at h ⊢
            exact (ih store parent).1 h
    · intro j h
      simp only [chainResolve] at h
      simp only [envAssign]
      cases hidx : store[idx]? with
      | none => simp [hidx] at h
      | some env =>
        simp only [hidx] at h ⊢
        cases hget : mapGet env.values name with
        | some w =>
          simp only [hget] at h ⊢
          obtain rfl : idx = j := by simpa using h
          exact ⟨env, hidx, by simp [hget], rfl⟩
        | none =>
          simp only [hget] at h ⊢
          cases henc : env.enclosing with
          | none => simp [henc] at h
          | some parent =>
            simp only [henc] at h ⊢
            exact (ih store parent).2 j h

/-- `Environment::assign` never creates or removes a binding: for every
record of the store and every name, whether the record binds the name
is unchanged by an assignment. -/
theorem envAssign_preserves_bindings (name : String) (v : LiteralValue)
    (fuel idx : Nat) (store : Store) :
    ∀ (i : Nat) (nm : String),
      (((envAssign store fuel idx name v).1)[i]?).map (fun e => (mapGet e.values nm).isSome)
        = (store[i]?).map (fun e => (mapGet e.values nm).isSome) := by
  intro i nm
  cases hres : chainResolve store fuel idx name with
  | none => rw [((envAssign_resolve name v fuel store idx).1 hres).1]
  | some j =>
    obtain ⟨env, hj, hsome, hassign⟩ := (envAssign_resolve name v fuel store idx).2 j hres
    obtain ⟨vals, enc⟩ := env
    simp only [Environment.values] at hsome
    simp only [Environment.values, Environment.enclosing] at hassign
    rw [hassign]
    by_cases hij : j = i
    · subst hij
      have hlt : j < store.length := (List.getElem?_eq_some.mp hj).1
      rw [List.getElem?_set_eq_of_lt _ hlt, hj]
      simp only [Option.map_some', Option.some.injEq, Environment.values]
      rw [mapGet_mapInsert]
      by_cases hnm : nm = name
      · subst hnm; simpa using hsome
      · simp [hnm]
    · rw [List.getElem?_set_ne hij]

/-- A one-record state binding `x` to `1`, used to exhibit the value
returned by a successful assignment. -/
def assignState : Interp :=
  { store := [.mk [("x", .Number 1)] none]
    envRef := 0
    specials := none
    output := []
    now := 0 }

/-- Claim C6.  Reading or assigning an undeclared name raises the
corresponding runtime error; an assignment writes into the innermost
record of the chain that already binds the name, returns the assigned
value, and never creates (or removes) a binding anywhere in the store;
after `var x = 1;`, reading and assigning `x` succeed
(`var x = 1; print x; x = 2; print x;` prints `1` then `2`). -/
theorem undeclared_vars_error_assign_innermost :
    (∀ (n : Nat) (st : Interp) (name : String),
       chainResolve st.store st.store.length st.envRef name = none →
       (evalExpr (n + 1) st (.Variable name)).2
           = Res.err ("Variable '" ++ name ++ "' has not been declared.") ∧
       (evalExpr (n + 2) st (.Assign name (.Literal (.Number 1)))).2
           = Res.err ("Variable " ++ name ++ " has not been declared.")) ∧
    (∀ (fuel : Nat) (store : Store) (idx : Nat) (name : String) (v : LiteralValue) (j : Nat),
       chainResolve store fuel idx name = some j →
       ∃ env, store[j]? = some env ∧ (mapGet env.values name).isSome = true ∧
         envAssign store fuel idx name v
           = (store.set j (.mk (mapInsert env.values name v) env.enclosing), true)) ∧
    (∀ (fuel : Nat) (store : Store) (idx : Nat) (name : String) (v : LiteralValue)
       (i : Nat) (nm : String),
       (((envAssign store fuel idx name v).1)[i]?).map (fun e => (mapGet e.values nm).isSome)
         = (store[i]?).map (fun e => (mapGet e.values nm).isSome)) ∧
    (evalExpr 5 assignState (.Assign ("x") (.Literal (.Number 2)))).2 = Res.ok (.Number 2) ∧
    (runProgram varProg 20).1.output = ["1", "2"] ∧
    (runProgram varProg 20).2 = Res.ok () := by
  refine ⟨?_, ?_, ?_, rfl, rfl, rfl⟩
  · intro n st name h
    obtain ⟨hassign, hget⟩ :=
      (envAssign_resolve name (.Number 1) st.store.length st.store st.envRef).1 h
    constructor
    · have hunfold : evalExpr (n + 1) st (.Variable name)
          = (match envGet st.store st.store.length st.envRef name with
             | some v => (st, .ok v)
             | none => (st, .err ("Variable '" ++ name ++ "' has not been declared."))) := rfl
      rw [hunfold, hget]
    · have hunfold : evalExpr (n + 2) st (.Assign name (.Literal (.Number 1)))
          = (match envAssign st.store st.store.length st.envRef name (.Number 1) with
             | (store', success) =>
                if success then ({ st with store := store' }, .ok (.Number 1))
                else (st, .err ("Variable " ++ name ++ " has not been declared."))) := rfl
      rw [hunfold, hassign]
      rfl
  · intro fuel store idx name v j h
    exact (envAssign_resolve name v fuel store idx).2 j h
  · intro fuel store idx name v i nm
    exact envAssign_preserves_bindings name v fuel idx store i nm

/-- Witness for C6 at concrete inputs: in the fresh interpreter the
name `zzz` is unbound, so reading it errors; in a one-record store
binding `x`, the resolver picks record `0` and the assignment rewrites
it; the binding-preservation instance holds at that store. -/
theorem undeclared_vars_error_assign_innermost_witness :
    ((evalExpr 1 (initialInterp 0) (.Variable ("zzz"))).2
        = Res.err ("Variable '" ++ "zzz" ++ "' has not been declared.") ∧
     (evalExpr 2 (initialInterp 0) (.Assign ("zzz") (.Literal (.Number 1)))).2
        = Res.err ("Variable " ++ "zzz" ++ " has not been declared.")) ∧
    (∃ env, (assignState.store)[0]? = some env ∧
       (mapGet env.values "x").isSome = true ∧
       envAssign assignState.store 1 0 "x" (.Number 2)
         = (assignState.store.set 0 (.mk (mapInsert env.values "x" (.Number 2)) env.enclosing),
            true)) ∧
    ((envAssign assignState.store 1 0 "x" (.Number 2)).1[0]?).map
        (fun e => (mapGet e.values "y").isSome)
      = ((assignState.store)[0]?).map (fun e => (mapGet e.values "y").isSome) :=
  ⟨undeclared_vars_error_assign_innermost.1 0 (initialInterp 0) "zzz" (by decide),
   undeclared_vars_error_assign_innermost.2.1 1 assignState.store 0 "x" (.Number 2) 0 (by decide),
   undeclared_vars_error_assign_innermost.2.2.1 1 assignState.store 0 "x" (.Number 2) 0 "y"⟩

/-! ## Claim C7 — block discipline and the environment pointer -/

/-- First components of equal pairs (stated so that unification may
reduce a matched-on left-hand side). -/
theorem fst_of_eq {σ α : Type} {A s' : σ} {B C : α} (h : (A, B) = (s', C)) : s' = A :=
  (congrArg Prod.fst h).symm

/-- Second components of equal pairs. -/
theorem snd_of_eq {σ α : Type} {A s' : σ} {B C : α} (h : (A, B) = (s', C)) : C = B :=
  (congrArg Prod.snd h).symm

/-- Inversion of `bindR` landing on `ok`: the first step succeeded and
the continuation produced the result. -/
theorem bindR_eq_ok {σ α β : Type} {r : σ × Res α} {k : σ → α → σ × Res β} {s' : σ} {b : β}
    (h : bindR r k = (s', Res.ok b)) :
    ∃ s1 a, r = (s1, Res.ok a) ∧ k s1 a = (s', Res.ok b) := by
  obtain ⟨s1, r1⟩ := r
  cases r1 with
  | ok v => exact ⟨s1, v, rfl, h⟩
  | err m => simp [bindR] at h
  | fatal m => simp [bindR] at h
  | timeout => simp [bindR] at h

/-- Every evaluator operation of the fuel-`n` engine leaves the current
environment pointer where it found it whenever it succeeds — and
`execute_block` restores it on runtime errors as well. -/
theorem engine_envRef_ok : ∀ n : Nat,
    (∀ st e st' v, (engine n).evalExprF st e = (st', Res.ok v) → st'.envRef = st.envRef) ∧
    (∀ st es st' vs, (engine n).evalArgsF st es = (st', Res.ok vs) → st'.envRef = st.envRef) ∧
    (∀ st c args st' v, (engine n).callFnF st c args = (st', Res.ok v) →
        st'.envRef = st.envRef) ∧
    (∀ st s st' u, (engine n).execStmtF st s = (st', Res.ok u) → st'.envRef = st.envRef) ∧
    (∀ st ss st' r, (engine n).executeBlockF st ss = (st', r) →
        ((∃ u, r = Res.ok u) ∨ (∃ m, r = Res.err m)) → st'.envRef = st.envRef) ∧
    (∀ st ss st' u, (engine n).interpretF st ss = (st', Res.ok u) → st'.envRef = st.envRef) := by
  intro n
  induction n with
  | zero =>
    refine ⟨?_, ?_, ?_, ?_, ?_, ?_⟩
    · intro st e st' v h; simp [engine_zero, engineZero] at h
    · intro st es st' vs h; simp [engine_zero, engineZero] at h
    · intro st c args st' v h; simp [engine_zero, engineZero] at h
    · intro st s st' u h; simp [engine_zero, engineZero] at h
    · intro st ss st' r h hok
      simp [engine_zero, engineZero] at h
      obtain ⟨h1, h2⟩ := h
      rcases hok with ⟨u, hu⟩ | ⟨m, hm⟩
      · rw [hu] at h2; simp at h2
      · rw [hm] at h2; simp at h2
    · intro st ss st' u h; simp [engine_zero, engineZero] at h
  | succ n ih =>
    obtain ⟨ihE, ihA, ihC, ihS, ihB, ihSS⟩ := ih
    refine ⟨?_, ?_, ?_, ?_, ?_, ?_⟩
    · -- evalExprF
      intro st e st' v h
      rw [engine_succ] at h
      cases e with
      | Assign name value =>
        simp only [engineStep] at h
        obtain ⟨st1, a, h1, h2⟩ := bindR_eq_ok h
        have e1 := ihE _ _ _ _ h1
        rcases hsplit : envAssign st1.store st1.store.length st1.envRef name a
          with ⟨store2, success⟩
        rw [hsplit] at h2
        rcases success with _ | _
        · simp at h2
        · simp at h2
          obtain ⟨hst, -⟩ := h2
          rw [← hst]
          exact e1
      | Binary left op right =>
        simp only [engineStep] at h
        obtain ⟨st1, a, h1, h2⟩ := bindR_eq_ok h
        obtain ⟨st2, b, h3, h4⟩ := bindR_eq_ok h2
        rw [fst_of_eq h4, ihE _ _ _ _ h3, ihE _ _ _ _ h1]
      | Call callee args =>
        simp only [engineStep] at h
        obtain ⟨st1, a, h1, h2⟩ := bindR_eq_ok h
        have e1 := ihE _ _ _ _ h1
        cases a with
        | Callable callable =>
          obtain ⟨st2, vs, h3, h4⟩ := bindR_eq_ok h2
          rw [ihC _ _ _ _ _ h4, ihA _ _ _ _ h3, e1]
        | Number x => exact absurd (snd_of_eq h2) (by simp)
        | StringValue s => exact absurd (snd_of_eq h2) (by simp)
        | True => exact absurd (snd_of_eq h2) (by simp)
        | False => exact absurd (snd_of_eq h2) (by simp)
        | Nil => exact absurd (snd_of_eq h2) (by simp)
      | Grouping inner =>
        simp only [engineStep] at h
        exact ihE _ _ _ _ h
      | Lambda params body =>
        simp only [engineStep] at h
        rcases hs : st.store[st.envRef]? with _ | env
        · rw [hs] at h
          exact absurd (snd_of_eq h) (by simp)
        · rw [hs] at h
          rw [fst_of_eq h]
      | Literal p =>
        simp only [engineStep] at h
        rw [fst_of_eq h]
      | Logical left op right =>
        simp only [engineStep] at h
        obtain ⟨st1, a, h1, h2⟩ := bindR_eq_ok h
        have e1 := ihE _ _ _ _ h1
        rcases ht : a.isTruthy with _ | b
        · simp only [ht] at h2; simp at h2
        · simp only [ht] at h2
          by_cases hop : op = TokenType.Or
          · rw [if_pos hop] at h2
            rcases b with _ | _
            · rw [if_neg (by simp)] at h2
              rw [ihE _ _ _ _ h2, e1]
            · rw [if_pos rfl] at h2
              rw [fst_of_eq h2]
              exact e1
          · rw [if_neg hop] at h2
            rcases b with _ | _
            · rw [if_neg (by simp)] at h2
              rw [fst_of_eq h2]
              exact e1
            · rw [if_pos rfl] at h2
              rw [ihE _ _ _ _ h2, e1]
      | Unary op right =>
        simp only [engineStep] at h
        obtain ⟨st1, a, h1, h2⟩ := bindR_eq_ok h
        have e1 := ihE _ _ _ _ h1
        split at h2
        · rw [fst_of_eq h2]; exact e1
        · exact absurd (snd_of_eq h2) (by simp)
        · rcases ht : a.isTruthy with _ | b
          · simp only [ht] at h2; simp at h2
          · simp only [ht] at h2
            rw [fst_of_eq h2]
            exact e1
        · exact absurd (snd_of_eq h2) (by simp)
      | Variable name =>
        simp only [engineStep] at h
        rcases hs : envGet st.store st.store.length st.envRef name with _ | w
        · rw [hs] at h
          exact absurd (snd_of_eq h) (by simp)
        · rw [hs] at h
          rw [fst_of_eq h]
    · -- evalArgsF
      intro st es st' vs h
      rw [engine_succ] at h
      cases es with
      | nil =>
        simp only [engineStep] at h
        rw [fst_of_eq h]
      | cons a rest =>
        simp only [engineStep] at h
        obtain ⟨st1, w, h1, h2⟩ := bindR_eq_ok h
        obtain ⟨st2, ws, h3, h4⟩ := bindR_eq_ok h2
        rw [fst_of_eq h4, ihA _ _ _ _ h3, ihE _ _ _ _ h1]
    · -- callFnF
      intro st c args st' v h
      rw [engine_succ] at h
      cases c with
      | LoxFunction name parameters body closure =>
        simp only [engineStep] at h
        split at h
        · rw [fst_of_eq h]
        · exact absurd (snd_of_eq h) (by simp)
        · exact absurd (snd_of_eq h) (by simp)
        · exact absurd (snd_of_eq h) (by simp)
      | NativeFunction name arity tag =>
        cases tag
        simp only [engineStep] at h
        rw [fst_of_eq h]
    · -- execStmtF
      intro st s st' u h
      rw [engine_succ] at h
      cases s with
      | Block statements =>
        simp only [engineStep] at h
        exact ihB _ _ _ _ h (Or.inl ⟨u, rfl⟩)
      | Expression e =>
        simp only [engineStep] at h
        obtain ⟨st1, a, h1, h2⟩ := bindR_eq_ok h
        rw [fst_of_eq h2]
        exact ihE _ _ _ _ h1
      | Function name params body =>
        simp only [engineStep] at h
        rcases hs : st.store[st.envRef]? with _ | env
        · rw [hs] at h
          exact absurd (snd_of_eq h) (by simp)
        · rw [hs] at h
          rw [fst_of_eq h]
      | If cond thenS elseS =>
        simp only [engineStep] at h
        obtain ⟨st1, a, h1, h2⟩ := bindR_eq_ok h
        have e1 := ihE _ _ _ _ h1
        rcases ht : a.isTruthy with _ | b
        · simp only [ht] at h2; simp at h2
        · simp only [ht] at h2
          rcases b with _ | _
          · cases elseS with
            | none =>
              rw [fst_of_eq h2]
              exact e1
            | some els => rw [ihSS _ _ _ _ h2, e1]
          · rw [ihSS _ _ _ _ h2, e1]
      | Print e =>
        simp only [engineStep] at h
        obtain ⟨st1, a, h1, h2⟩ := bindR_eq_ok h
        rw [fst_of_eq h2]
        show st1.envRef = st.envRef
        exact ihE _ _ _ _ h1
      | Return value =>
        cases value with
        | none =>
          simp only [engineStep] at h
          rw [fst_of_eq h]
        | some e =>
          simp only [engineStep] at h
          obtain ⟨st1, a, h1, h2⟩ := bindR_eq_ok h
          rw [fst_of_eq h2]
          show st1.envRef = st.envRef
          exact ihE _ _ _ _ h1
      | Var name init =>
        simp only [engineStep] at h
        obtain ⟨st1, a, h1, h2⟩ := bindR_eq_ok h
        rw [fst_of_eq h2]
        show st1.envRef = st.envRef
        exact ihE _ _ _ _ h1
      | While cond body =>
        simp only [engineStep] at h
        obtain ⟨st1, a, h1, h2⟩ := bindR_eq_ok h
        have e1 := ihE _ _ _ _ h1
        rcases ht : a.isTruthy with _ | b
        · simp only [ht] at h2; simp at h2
        · simp only [ht] at h2
          rcases b with _ | _
          · rw [fst_of_eq h2]
            exact e1
          · obtain ⟨st2, w, h3, h4⟩ := bindR_eq_ok h2
            rw [ihS _ _ _ _ h4, ihSS _ _ _ _ h3, e1]
    · -- executeBlockF
      intro st ss st' r h hok
      rw [engine_succ] at h
      simp only [engineStep] at h
      split at h
      · rw [fst_of_eq h]
      · rw [fst_of_eq h]
      · have h2 := snd_of_eq h
        rw [h2] at hok
        rcases hok with ⟨u, hu⟩ | ⟨m2, hm⟩
        · simp at hu
        · simp at hm
      · have h2 := snd_of_eq h
        rw [h2] at hok
        rcases hok with ⟨u, hu⟩ | ⟨m2, hm⟩
        · simp at hu
        · simp at hm
    · -- interpretF
      intro st ss st' u h
      rw [engine_succ] at h
      cases ss with
      | nil =>
        simp only [engineStep] at h
        have h1 : (st, Res.ok ()) = (st', Res.ok u) := h
        cases h1
        rfl
      | cons s rest =>
        simp only [engineStep] at h
        obtain ⟨st1, w, h1, h2⟩ := bindR_eq_ok h
        rw [ihSS _ _ _ _ h2, ihS _ _ _ _ h1]

/-- Claim C7.  `execute_block` pushes a fresh child record and restores
the previous environment pointer on exit both on success and on a
runtime error (a panic unwinds the process); consequently, after any
successful program run the environment pointer is back at the global
record (index `0`). -/
theorem block_env_restored_and_global_at_end :
    (∀ (fuel : Nat) (st : Interp) (stmts : List Stmt) (st' : Interp) (r : Res Unit),
       executeBlock fuel st stmts = (st', r) →
       ((∃ u, r = Res.ok u) ∨ (∃ m, r = Res.err m)) → st'.envRef = st.envRef) ∧
    (∀ (prog : List Stmt) (fuel : Nat) (st' : Interp),
       runProgram prog fuel = (st', Res.ok ()) → st'.envRef = 0) := by
  constructor
  · intro fuel st stmts st' r h hok
    exact (engine_envRef_ok fuel).2.2.2.2.1 st stmts st' r h hok
  · intro prog fuel st' h
    exact (engine_envRef_ok fuel).2.2.2.2.2 (initialInterp 0) prog st' () h

/-- Witness for C7: a concrete block executes with the pointer restored
to the global record, and a concrete successful program ends with the
pointer at the global record. -/
theorem block_env_restored_and_global_at_end_witness :
    (executeBlock 10 (initialInterp 0) [Stmt.Print (.Literal (.Number 1))]).1.envRef
        = (initialInterp 0).envRef ∧
    (runProgram [Stmt.Print (.Literal (.Number 1))] 10).1.envRef = 0 :=
  ⟨block_env_restored_and_global_at_end.1 10 (initialInterp 0)
      [Stmt.Print (.Literal (.Number 1))]
      (executeBlock 10 (initialInterp 0) [Stmt.Print (.Literal (.Number 1))]).1
      (executeBlock 10 (initialInterp 0) [Stmt.Print (.Literal (.Number 1))]).2
      rfl (Or.inl ⟨(), rfl⟩),
   block_env_restored_and_global_at_end.2 [Stmt.Print (.Literal (.Number 1))] 10
      (runProgram [Stmt.Print (.Literal (.Number 1))] 10).1 rfl⟩

/-! ## Claim C8 — the 255 parameter/argument caps -/

/-- The index function of `callTokens n`, written arithmetically so
that token accesses reduce by integer arithmetic instead of list
walks. -/
def callTokensFn (n : Nat) : Nat → Token := fun i =>
  if i = 0 then tIdent ("f")
  else if i = 1 then tk .LeftParen ("(")
  else if i < 2 * n + 1 then (if (i - 2) % 2 = 0 then tNum 1 else tk .Comma (","))
  else if i = 2 * n + 1 then tk .RightParen (")")
  else if i = 2 * n + 2 then tk .Semicolon (";")
  else tk .Eof ("")

/-- The length of `argsList (n + 1)`. -/
theorem argsList_length : ∀ n : Nat, (argsList (n + 1)).length = 2 * n + 1 := by
  intro n
  induction n with
  | zero => rfl
  | succ m ih =>
    show (tNum 1 :: tk .Comma (",") :: argsList (m + 1)).length = _
    simp only [List.length_cons, ih]
    omega

/-- Indexing into `argsList`: number tokens at even offsets, commas at
odd ones. -/
theorem argsList_getD : ∀ (n j : Nat), j < 2 * n + 1 →
    (argsList (n + 1)).getD j eofToken
      = (if j % 2 = 0 then tNum 1 else tk .Comma (",")) := by
  intro n
  induction n with
  | zero =>
    intro j hj
    obtain rfl : j = 0 := by omega
    rfl
  | succ m ih =>
    intro j hj
    obtain _ | _ | j := j
    · rfl
    · rfl
    · have h2 : (argsList (m + 1 + 1)).getD (j + 2) eofToken
          = (argsList (m + 1)).getD j eofToken := rfl
      rw [h2, ih j (by omega)]
      have hp : (j + 2) % 2 = j % 2 := by omega
      rw [hp]

/-- The two index functions of the 255-argument call agree. -/
theorem callTokensFn_eq : tokensFromList (callTokens 255) = callTokensFn 255 := by
  have hlen : (argsList 255).length = 509 := argsList_length 254
  funext i
  show (callTokens 255).getD i eofToken = callTokensFn 255 i
  obtain _ | _ | j := i
  · rfl
  · rfl
  · show (argsList 255 ++ [tk .RightParen (")"), tk .Semicolon (";"), tk .Eof ("")]).getD
        j eofToken = callTokensFn 255 (j + 2)
    by_cases hj : j < 509
    · have hr : callTokensFn 255 (j + 2) = (if j % 2 = 0 then tNum 1 else tk .Comma (",")) := by
        unfold callTokensFn
        rw [if_neg (by omega), if_neg (by omega), if_pos (by omega),
          show j + 2 - 2 = j from by omega]
      rw [List.getD_append _ _ _ _ (by omega), argsList_getD 254 j (by omega), hr]
    · obtain ⟨k, rfl⟩ : ∃ k, j = 509 + k := ⟨j - 509, by omega⟩
      rw [List.getD_append_right _ _ _ _ (by omega)]
      have hs : 509 + k - (argsList 255).length = k := by omega
      rw [hs]
      obtain _ | _ | k := k
      · unfold callTokensFn
        rw [if_neg (by omega), if_neg (by omega), if_neg (by omega), if_pos (by omega)]
        rfl
      · unfold callTokensFn
        rw [if_neg (by omega), if_neg (by omega), if_neg (by omega), if_neg (by omega),
          if_pos (by omega)]
        rfl
      · unfold callTokensFn
        rw [if_neg (by omega), if_neg (by omega), if_neg (by omega), if_neg (by omega),
          if_neg (by omega)]
        show ([tk .Eof ("")].getD k eofToken) = tk .Eof ("")
        obtain _ | k := k
        · rfl
        · rfl

set_option maxRecDepth 10000 in
set_option maxHeartbeats 4000000 in
/-- Claim C8, counterexample.  The claim says a call with at most 255
arguments parses successfully.  In `Parser::finish_call` the overflow
check `arguments.len() >= 255` runs **after** pushing each parsed
argument, so a call with exactly 255 arguments is rejected. -/
theorem call_with_255_args_parse_error :
    (parseTokens (callTokens 255) 300).2
      = Res.err ("Line 0: Functions cannot have more than 255 arguments") := by
  show ((pengine 300).parseLoopF
      { tokens := tokensFromList (callTokens 255), current := 0 } [] []).2 = _
  rw [callTokensFn_eq]
  rfl

/-- A tiny stream whose next tokens are one more argument (`1`) and
then `)`; used to drive the argument loop at its boundary. -/
def oneMoreArgTokens : List Token :=
  [tNum 1, tk .RightParen (")"), tk .Semicolon (";"), tk .Eof ("")]

/-- A tiny stream whose next tokens are one more parameter and then
`)`; used to drive the parameter loop at its boundary. -/
def oneMoreParamTokens : List Token :=
  [tIdent ("p"), tk .RightParen (")"), tk .Eof ("")]

set_option maxRecDepth 10000 in
set_option maxHeartbeats 4000000 in
/-- Claim C8, amended.  Parameter lists of function declarations and
lambdas cap at 255: the shared parameter loop of
`fun_declaration`/`lambda_expression` checks the count before
consuming another parameter, so it still accepts the parameter that
brings the count to 255 and rejects a 256th with the caller's
overflow message.  Argument lists cap at 254: `finish_call`'s loop
checks `>= 255` after pushing, so it accepts the argument bringing
the count to 254 and errors on the one bringing it to 255 (the
counterexample shows the same through the whole parser pipeline). -/
theorem arg_param_caps_amended :
    ((pengine 20).argsLoopF ⟨tokensFromList oneMoreArgTokens, 0⟩
        (List.replicate 253 (Expr.Literal (.Number 1)))).2
      = Res.ok (List.replicate 253 (Expr.Literal (.Number 1)) ++ [Expr.Literal (.Number 1)]) ∧
    ((pengine 20).argsLoopF ⟨tokensFromList oneMoreArgTokens, 0⟩
        (List.replicate 254 (Expr.Literal (.Number 1)))).2
      = Res.err ("Functions cannot have more than 255 arguments") ∧
    ((pengine 20).paramsLoopF ("Can't have more than 255 parameters.") ⟨tokensFromList oneMoreParamTokens, 0⟩
        (List.replicate 254 "p")).2
      = Res.ok (List.replicate 254 "p" ++ ["p"]) ∧
    ((pengine 20).paramsLoopF ("Can't have more than 255 parameters.") ⟨tokensFromList oneMoreParamTokens, 0⟩
        (List.replicate 255 "p")).2
      = Res.err ("Can't have more than 255 parameters.") ∧
    ((pengine 20).paramsLoopF ("Can't have more than 255 arguments in a lambda function.")
        ⟨tokensFromList oneMoreParamTokens, 0⟩ (List.replicate 255 "p")).2
      = Res.err ("Can't have more than 255 arguments in a lambda function.") :=
  ⟨rfl, rfl, rfl, rfl, rfl⟩
